import Mathlib

/-!
Verification of `raptic.py`

Shallow embedding of the RAPTIC thin-client configuration front-end
(`src/raptic.py`) together with the parts of Python's `configparser`
standard-library module the program relies on (`ConfigParser.read`,
`ConfigParser.write`, `getboolean`, the section/option dictionaries).

Modelling notes:
* Strings are Lean `String`s; the Python string helpers the code depends on
  (`str.strip`, `str.lower`, `'\n'`-handling in `ConfigParser.write`) are
  re-implemented below on `List Char` so their behaviour is fully explicit.
* The terminal-dialog toolkit is an external collaborator: each blocking
  dialog call is modelled by an explicit input describing the user's
  response (confirmed value or cancel).  A `radiolist` offering exactly the
  tags `yes`/`no` is modelled by an `Option Bool` response.
* The filesystem is modelled explicitly: a map from path to file lines plus
  a map from path to the error `open(path, 'w')` raises, if any.  Python's
  `open(path, 'w')` raises `FileNotFoundError` when the directory is
  missing and `PermissionError` when access is denied; both are modelled.
* `BasicInterpolation` is not modelled: values are assumed `'%'`-free where
  a theorem depends on `ConfigParser.get`, which is stated explicitly in
  the hypotheses of the theorems concerned.
-/

namespace Raptic

/-! ## Python string helpers (`str.strip`, `str.lower`, substring test) -/

/-- Whitespace characters recognised by Python's `str.strip()` — the
complete set of code points for which `str.isspace()` holds (U+0009–U+000D,
U+001C–U+001F, space, NEL, NBSP, and the Unicode space separators).  The
`\s`/`\S` classes of Python's `re` module match exactly the same set for
`str` patterns, so this one class also embeds the `\s*` of `OPTCRE` and the
`\S` of `NONSPACECRE` in `configparser`. -/
def pyWhitespace (c : Char) : Bool :=
  c = ' ' || c = '\t' || c = '\n' || c = '\r' || c = '\x0b' || c = '\x0c' ||
  c = '\x1c' || c = '\x1d' || c = '\x1e' || c = '\x1f' || c = '\x85' ||
  c = '\xa0' || c = '\u1680' || c = '\u2000' || c = '\u2001' || c = '\u2002' ||
  c = '\u2003' || c = '\u2004' || c = '\u2005' || c = '\u2006' || c = '\u2007' ||
  c = '\u2008' || c = '\u2009' || c = '\u200a' || c = '\u2028' || c = '\u2029' ||
  c = '\u202f' || c = '\u205f' || c = '\u3000'

/-- Python `str.lstrip()` on a character list. -/
def trimLeftL (l : List Char) : List Char := l.dropWhile pyWhitespace

/-- Python `str.rstrip()` on a character list. -/
def trimRightL (l : List Char) : List Char := (l.reverse.dropWhile pyWhitespace).reverse

/-- Python `str.strip()` on a character list. -/
def stripL (l : List Char) : List Char := trimLeftL (trimRightL l)

/-- Python `str.strip()` on strings. -/
def pyStrip (s : String) : String := ⟨stripL s.data⟩

/-- Python `str.rstrip()` on strings. -/
def pyRStrip (s : String) : String := ⟨trimRightL s.data⟩

/-- Python `str.lower()` on strings (ASCII letters; the configuration keys and
`getboolean` tokens are all ASCII). -/
def pyLower (s : String) : String := ⟨s.data.map Char.toLower⟩

/-- Test whether `n` is a prefix of `l` (explicit recursion for proofs). -/
def isPrefixOfC : List Char → List Char → Bool
  | [], _ => true
  | _ :: _, [] => false
  | a :: t, b :: u => a = b && isPrefixOfC t u

/-- Python's `needle in haystack` substring test on character lists. -/
def containsSub (l n : List Char) : Bool :=
  match l with
  | [] => isPrefixOfC n []
  | c :: t => isPrefixOfC n (c :: t) || containsSub t n

/-- Python's `needle in haystack` substring test on strings. -/
def ContainsStr (h n : String) : Prop := containsSub h.data n.data = true

instance (h n : String) : Decidable (ContainsStr h n) := by
  unfold ContainsStr; infer_instance

/-- Last element of a character list. -/
def lastChar? : List Char → Option Char
  | [] => none
  | [c] => some c
  | _ :: c :: t => lastChar? (c :: t)

/-! ### Lemmas about the string helpers -/

/-! ## Ordered dictionaries (Python `dict` as insertion-ordered assoc list) -/

/-- Lookup in an insertion-ordered dictionary. -/
def lookupA {α : Type} : List (String × α) → String → Option α
  | [], _ => none
  | (k, v) :: t, k' => if k = k' then some v else lookupA t k'

/-- Python `d[k] = v`: overwrite in place if present, else append (dicts keep
insertion order). -/
def setA {α : Type} : List (String × α) → String → α → List (String × α)
  | [], k, v => [(k, v)]
  | (k', v') :: t, k, v => if k' = k then (k, v) :: t else (k', v') :: setA t k v

/-! ## Configuration model

`ConfigParser._sections`: an insertion-ordered dictionary from section name
to an insertion-ordered dictionary from (lower-cased) option name to raw
string value.  The `DEFAULT` section lives outside `_sections` and is empty
throughout this program. -/

/-- One configuration section: option name to raw value. -/
abbrev IniSection := List (String × String)

/-- A parsed configuration: `ConfigParser._sections`. -/
abbrev Config := List (String × IniSection)

/-- Model of `ConfigParser.sections()`: the list of section names (`DEFAULT` excluded). -/
def sectionsOf (c : Config) : List String := c.map Prod.fst

/-- Model of `config[s][k] = v` for a section `s` already present (the program only
writes into `general` after creating or loading it; a missing section would
raise `KeyError`, which callers below guard against explicitly). -/
def setKeyIn : Config → String → String → String → Config
  | [], _, _, _ => []
  | (s', sec) :: t, s, k, v =>
    if s' = s then (s', setA sec k v) :: t else (s', sec) :: setKeyIn t s k v

/-- Model of `config.get(section, option)` without interpolation (values are assumed
`'%'`-free where this matters) and without `DEFAULT` fallback (the `DEFAULT`
section is empty in every run of this program).  `none` models the
`NoSectionError`/`NoOptionError` exceptions. -/
def pyGet (c : Config) (s k : String) : Option String :=
  match lookupA c s with
  | some sec => lookupA sec k
  | none => none

/-- Model of `ConfigParser.BOOLEAN_STATES`. -/
def BOOLEAN_STATES : List (String × Bool) :=
  [("1", true), ("yes", true), ("true", true), ("on", true),
   ("0", false), ("no", false), ("false", false), ("off", false)]

/-- Model of `ConfigParser._convert_to_boolean`: `none` models the `ValueError` raised
on an unrecognised value. -/
def convertToBoolean (v : String) : Option Bool := lookupA BOOLEAN_STATES (pyLower v)

/-- Model of `config.getboolean(section, option)`: `none` models any of the exceptions
(`NoSectionError`, `NoOptionError`, `ValueError`). -/
def getBoolean (c : Config) (s k : String) : Option Bool :=
  match pyGet c s k with
  | some v => convertToBoolean v
  | none => none

/-- The `update` method of `MutableMapping`, as `ConfigParser` inherits it:
`for s in src: dst[s] = src[s]`, where `__setitem__` clears any existing
section of that name in place and copies the source section's pairs.
Iteration over `src` also yields the (empty) `DEFAULT` section, whose copy is
a no-op and is therefore omitted. -/
def updateConfig (dst src : Config) : Config :=
  src.foldl (fun d sc => setA d sc.1 sc.2) dst

/-! ## `ConfigParser.write`

`write` emits, for each section, a `[name]` header, one `key = value` line
per option (delimiter `" = "`, values escaped by `value.replace('\n',
'\n\t')`), and a trailing blank line.  The (empty) `DEFAULT` section is
skipped.  The file is modelled as its list of lines; for keys and values
free of newline characters (the case of every round-trip theorem below)
this is exactly the line list Python later reads back. -/

/-- Model of `str.replace('\n', '\n\t')` from `RawConfigParser._write_section`. -/
def replaceNlTab : List Char → List Char
  | [] => []
  | c :: t => if c = '\n' then '\n' :: '\t' :: replaceNlTab t else c :: replaceNlTab t

/-- The line written for one option. -/
def pairLine (kv : String × String) : String :=
  kv.1 ++ " = " ++ ⟨replaceNlTab kv.2.data⟩

/-- The lines written for one section. -/
def sectionLines (name : String) (sec : IniSection) : List String :=
  ("[" ++ name ++ "]") :: sec.map pairLine ++ [""]

/-- Model of `ConfigParser.write`: the whole file, as its list of lines. -/
def writeLines (c : Config) : List String :=
  (c.map fun sc => sectionLines sc.1 sc.2).flatten

/-! ## `RawConfigParser._read`

Faithful model of the reading loop for the default configuration
(`delimiters=('=', ':')`, full-line comment prefixes `'#'`/`';'`, no inline
comments, `empty_lines_in_values=True`, `strict=True`,
`allow_no_value=False`).  Python collects option-line syntax errors and
raises `ParsingError` after the loop; the model raises at the first bad
line — in both cases reading fails, only the error value differs. -/

inductive ParseErr where
  | missingSectionHeader
  | duplicateSection
  | duplicateOption
  | badLine
deriving DecidableEq, Repr

/-- Section content while reading: option name to value lines, most recent
line first (Python keeps a list of lines per option until
`_join_multiline_values`). -/
abbrev RawPairs := List (String × List String)

/-- Append one more raw line to the value of option `k`. -/
def appendLineTo : RawPairs → String → String → RawPairs
  | [], _, _ => []
  | (k', ls) :: t, k, line =>
    if k' = k then (k', line :: ls) :: t else (k', ls) :: appendLineTo t k line

/-- The section currently being filled (`cursect`): either the `DEFAULT`
section's dictionary or a named section. -/
inductive CurSect where
  | defaultSec
  | named (name : String) (pairsRev : RawPairs)
deriving DecidableEq, Repr

/-- Reader state. -/
structure PState where
  /-- Finished named sections in order, values still as raw line lists. -/
  done : List (String × RawPairs)
  /-- Section names already read (`elements_added`, strict mode). -/
  seen : List String
  /-- The `DEFAULT` section's raw pairs (`_defaults`). -/
  defaults : RawPairs
  /-- Field `cursect`. -/
  cur : Option CurSect
  /-- Field `optname`. -/
  optname : Option String
  /-- Field `indent_level`. -/
  indent : Nat
deriving DecidableEq, Repr

def initPState : PState := ⟨[], [], [], none, none, 0⟩

/-- Move the pending named section (if any) into `done`.  Python adds the
section dictionary to `_sections` at header time; keeping it pending until
the next header or end of file yields the same insertion order. -/
def flushCur (st : PState) : PState :=
  match st.cur with
  | some (.named n ps) => { st with done := st.done ++ [(n, ps)], cur := none }
  | _ => { st with cur := none }

/-- Append a raw line to option `k` of the current section. -/
def appendToCurrent (st : PState) (k line : String) : PState :=
  match st.cur with
  | some .defaultSec => { st with defaults := appendLineTo st.defaults k line }
  | some (.named n ps) => { st with cur := some (.named n (appendLineTo ps k line)) }
  | none => st

/-- Option names already present in the current section (for the strict
duplicate-option check). -/
def curKeys (st : PState) : List String :=
  match st.cur with
  | some .defaultSec => st.defaults.map Prod.fst
  | some (.named _ ps) => ps.map Prod.fst
  | none => []

/-- Record a new option `k` with first value line `v` in the current section. -/
def insertOpt (st : PState) (k v : String) : PState :=
  match st.cur with
  | some .defaultSec => { st with defaults := (k, [v]) :: st.defaults, optname := some k }
  | some (.named n ps) =>
    { st with cur := some (.named n ((k, [v]) :: ps)), optname := some k }
  | none => st

/-- The delimiters of the default `OPTCRE` regex. -/
def delims : List Char := ['=', ':']

/-- Split an option line at the first delimiter: the `OPTCRE` regex
`(?P<option>.*?)\s*(?P<vi>=|:)\s*(?P<value>.*)$` takes the shortest prefix
before a delimiter as the option part. -/
def splitDelim : List Char → Option (List Char × List Char)
  | [] => none
  | c :: t =>
    if c ∈ delims then some ([], t)
    else (splitDelim t).map (fun p => (c :: p.1, p.2))

/-- Characters before the first `']'`, if any (`SECTCRE` header group). -/
def takeUntilRB : List Char → Option (List Char)
  | [] => none
  | c :: t => if c = ']' then some [] else (takeUntilRB t).map (c :: ·)

/-- Regex `SECTCRE` (`\[(?P<header>[^]]+)\]`) matched at the start of a stripped
line; characters after the closing bracket are ignored by the regex match. -/
def sectionHeader? (v : List Char) : Option String :=
  match v with
  | [] => none
  | c :: rest =>
    if c = '[' then
      match takeUntilRB rest with
      | some hdr => if hdr = [] then none else some ⟨hdr⟩
      | none => none
    else none

/-- Full-line comment: the stripped line starts with `'#'` or `';'`. -/
def isCommentLine (stripped : List Char) : Bool :=
  match stripped with
  | [] => false
  | c :: _ => c = '#' || c = ';'

/-- Section-header and option-line handling (the non-continuation branch of
the reading loop). -/
def headerOrOption (st : PState) (value : List Char) (ind : Nat) :
    Except ParseErr PState :=
  let st := { st with indent := ind }
  match sectionHeader? value with
  | some name =>
    if name ∈ st.seen then .error .duplicateSection
    else if name = "DEFAULT" then
      .ok { flushCur st with cur := some .defaultSec, optname := none }
    else
      .ok { flushCur st with
            cur := some (.named name [])
            seen := st.seen ++ [name]
            optname := none }
  | none =>
    match st.cur with
    | none => .error .missingSectionHeader
    | some _ =>
      match splitDelim value with
      | none => .error .badLine
      | some (pre, post) =>
        let k := pyLower ⟨trimRightL pre⟩
        if k ∈ curKeys st then .error .duplicateOption
        else .ok (insertOpt st k ⟨stripL post⟩)

/-- One line of the reading loop. -/
def lineStep (st : PState) (line : String) : Except ParseErr PState :=
  let value := stripL line.data
  if isCommentLine value then .ok st
  else if value.isEmpty then
    -- blank line: with `empty_lines_in_values`, append `''` to the value
    -- being collected, if any
    match st.cur, st.optname with
    | some _, some k => .ok (appendToCurrent st k "")
    | _, _ => .ok st
  else
    let ind := (line.data.takeWhile pyWhitespace).length
    match st.cur, st.optname with
    | some _, some k =>
      if st.indent < ind then .ok (appendToCurrent st k ⟨value⟩)
      else headerOrOption st value ind
    | _, _ => headerOrOption st value ind

def runLines (st : PState) : List String → Except ParseErr PState
  | [] => .ok st
  | l :: ls =>
    match lineStep st l with
    | .ok st' => runLines st' ls
    | .error e => .error e

/-- Model of `"\n".join(lines)` (own recursion for proof control). -/
def joinNL : List String → String
  | [] => ""
  | [s] => s
  | s :: t => s ++ "\n" ++ joinNL t

/-- Model of `_join_multiline_values` for one option: join the collected lines and
strip trailing whitespace. -/
def finalizeVal (linesRev : List String) : String := pyRStrip (joinNL linesRev.reverse)

def finalizeSec (ps : RawPairs) : IniSection :=
  ps.reverse.map (fun kv => (kv.1, finalizeVal kv.2))

/-- Model of `ConfigParser.read` of a file given as its list of lines: the resulting
`_sections` (the `DEFAULT` section is kept separately and is not part of
`sections()`). -/
def parseLines (lines : List String) : Except ParseErr Config :=
  match runLines initPState lines with
  | .error e => .error e
  | .ok st => .ok ((flushCur st).done.map (fun s => (s.1, finalizeSec s.2)))

/-! ## Option schema (`RAPTIC.configuration_options`) -/

structure ConfigOption where
  name : String
  label : String
  description : String
  /-- Field `option_type`: `True` for `bool`, `False` for `str`. -/
  isBool : Bool
  default : String
  required : Bool
deriving DecidableEq, Repr

/-- Model of `RAPTIC.configuration_options`: a `dict` keyed by label, in insertion
order. -/
def configuration_options : List (String × ConfigOption) :=
  [("Server",
    ⟨"server", "Server", "Hostname or IP-Address of the ThinClient-Host-Server",
     false, "", true⟩),
   ("Username",
    ⟨"user", "Username", "Username of the user that should be used by this ThinClient",
     false, "", true⟩),
   ("Fullscreen",
    ⟨"fullscreen", "Fullscreen", "Run rdesktop in fullscreen mode (default: yes)",
     true, "yes", false⟩)]

/-- Model of `configuration_options.values()`. -/
def optionValues : List ConfigOption := configuration_options.map Prod.snd

/-! ## Filesystem model

`open(path, 'w')` succeeds, or raises `FileNotFoundError` when the path's
directory is missing, or `PermissionError` when the path is not writable.
`isfile` is membership in `files`. -/

inductive FsError where
  | fileNotFound
  | permissionDenied
deriving DecidableEq, Repr

structure FSModel where
  /-- Existing files: path to content lines. -/
  files : List (String × List String)
  /-- Paths on which `open(path, 'w')` raises, and the error raised. -/
  writeErr : List (String × FsError)
deriving DecidableEq, Repr

/-- Model of `RAPTIC.__config_save`: `self.config.write(open(self.__config_path, 'w'))`. -/
def saveConfig (fs : FSModel) (path : String) (c : Config) : Except FsError FSModel :=
  match lookupA fs.writeErr path with
  | some e => .error e
  | none => .ok { fs with files := setA fs.files path (writeLines c) }

/-! ## `RAPTIC.__read_config`

The candidate paths `~/.raptic` and `~/.config/raptic` after
`abspath(expanduser(expandvars(...)))`; expansion is modelled by the `home`
parameter (an absolute home directory without environment references).
`config.read` raising `ParsingError` propagates. -/

def rapticPath (home : String) : String := home ++ "/.raptic"

def configRapticPath (home : String) : String := home ++ "/.config/raptic"

def readConfig (fs : FSModel) (home : String) : Except ParseErr (Config × String) :=
  match lookupA fs.files (rapticPath home) with
  | some lines => (parseLines lines).map (fun c => (c, rapticPath home))
  | none =>
    match lookupA fs.files (configRapticPath home) with
    | some lines => (parseLines lines).map (fun c => (c, configRapticPath home))
    | none => .ok ([], rapticPath home)

/-! ## `RAPTIC.run` start gating -/

inductive StartState where
  | firstRun
  | mainMenu
deriving DecidableEq, Repr

/-- Gate `if not self.config.sections(): self.__first_start()` — the state `run`
enters first. -/
def startState (c : Config) : StartState :=
  if sectionsOf c = [] then .firstRun else .mainMenu

/-! ## Dialog responses -/

/-- Outcome of a blocking `inputbox`: pythondialog returns `(code, value)`;
on cancel/escape the value is the empty string, modelled by `cancel`. -/
inductive InputResp where
  | ok (s : String)
  | cancel
deriving DecidableEq, Repr

/-! ## `RAPTIC.__first_start` -/

def welcomeMsg : String :=
  "Welcome to RAPTIC!\nThis appears to be the first time you run RAPTIC on this PC. We therefore will generate a new configuration in the following steps."

def abortMsg : String := "Configuration aborted. No configuration file written..."

def writtenMsg : String :=
  "Configuration file has been written. You can now start using RAPTIC."

def unwritableMsg (path : String) : String :=
  "Configuration file (" ++ path ++ ") is not writeable."

def savedMsg : String := "The config has been written to file."

/-- How the process leaves a flow. -/
inductive ProcOutcome where
  | returned
  | exited (code : Nat)
  | crashed (e : FsError)
deriving DecidableEq, Repr

structure FirstStartResult where
  /-- All `msgbox` messages shown, in order. -/
  msgs : List String
  config : Config
  fs : FSModel
  outcome : ProcOutcome
deriving DecidableEq, Repr

/-- Model of `RAPTIC.__first_start`.  `resp` gives the user's answer to the `inputbox`
for each required option, keyed by option name.  Note that on a cancelled
input the code shows `abortMsg` but then *continues*: the loop body still
stores the (empty) value and the save at the end still runs. -/
def firstStart (resp : String → InputResp) (cfg0 : Config) (fs : FSModel)
    (path : String) : FirstStartResult :=
  let init : Config × List String := (setA cfg0 "general" [], [welcomeMsg])
  let step := fun (acc : Config × List String) (o : ConfigOption) =>
    if o.required then
      match resp o.name with
      | .ok v => (setKeyIn acc.1 "general" o.name v, acc.2)
      | .cancel => (setKeyIn acc.1 "general" o.name "", acc.2 ++ [abortMsg])
    else (setKeyIn acc.1 "general" o.name o.default, acc.2)
  let r := optionValues.foldl step init
  match saveConfig fs path r.1 with
  | .ok fs' => ⟨r.2 ++ [writtenMsg], r.1, fs', .returned⟩
  | .error .fileNotFound => ⟨r.2 ++ [unwritableMsg path], r.1, fs, .exited 1⟩
  | .error e => ⟨r.2, r.1, fs, .crashed e⟩

/-! ## `RAPTIC.__config_edit`

One loop iteration consumes one user interaction with the edit menu.  The
menu itself is a blocking `dialog.menu` call with `CHANGE`/`BACK`/`SAVE`
buttons; its outcome (and the outcome of the per-option follow-up dialog)
is the event.  The menu offers exactly the three schema labels; `pick` with
any other label models the (unreachable) `KeyError` of
`configuration_options[tag]`.  For a boolean option the follow-up is a
`radiolist` offering exactly the tags `yes`/`no`; its confirmed outcome is
therefore an `Option Bool`.  For a string option it is an `inputbox`. -/

inductive EditEvent where
  /-- Button `BACK` (the cancel button); `confirmDiscard` is the answer to the
  `yesno` confirmation, used only when the scratch copy is dirty. -/
  | back (confirmDiscard : Bool)
  /-- Button `CHANGE` on the option labelled `label`; `strResp` is the user's
  `inputbox` answer if the option is string-typed, `boolResp` the
  `radiolist` answer (`some true` = tag `yes`, `some false` = tag `no`,
  `none` = cancel) if it is boolean-typed. -/
  | pick (label : String) (strResp : InputResp) (boolResp : Option Bool)
  /-- The `SAVE` extra button. -/
  | save
  /-- Any other dialog exit code (e.g. ESC): none of the three `if` branches
  fires and the loop repeats. -/
  | other
deriving DecidableEq, Repr

structure EditState where
  /-- Field `self.config`. -/
  committed : Config
  /-- Field `config_tmp`. -/
  scratch : Config
  /-- Field `config_changed`. -/
  changed : Bool
  fs : FSModel
  /-- Field `self.__config_path`. -/
  path : String
  /-- Field for the `msgbox` messages shown so far. -/
  msgs : List String
deriving DecidableEq, Repr

inductive EditStep where
  | cont (s : EditState)
  /-- A `return` to the caller (the main menu). -/
  | ret (s : EditState)
  /-- An uncaught exception (`KeyError`, `ValueError`, `PermissionError`). -/
  | crashed
deriving DecidableEq, Repr

/-- Building the menu's `choices` list evaluates
`config_tmp['general'][option.name]` for every schema option; a missing
section or key raises `KeyError`. -/
def menuChoicesOK (scratch : Config) : Bool :=
  match lookupA scratch "general" with
  | none => false
  | some sec => optionValues.all (fun o => (lookupA sec o.name).isSome)

def editStep (st : EditState) (ev : EditEvent) : EditStep :=
  if !menuChoicesOK st.scratch then .crashed
  else
    match ev with
    | .back c =>
      if st.changed then if c then .ret st else .cont st
      else .ret st
    | .pick label sresp bresp =>
      match lookupA configuration_options label with
      | none => .crashed
      | some o =>
        if o.isBool then
          match getBoolean st.scratch "general" o.name with
          | none => .crashed
          | some _ =>
            match bresp with
            | none => .cont st
            | some b =>
              .cont { st with
                      changed := true
                      scratch := setKeyIn st.scratch "general" o.name
                                   (if b then "yes" else "no") }
        else
          match sresp with
          | .cancel => .cont st
          | .ok v =>
            .cont { st with
                    changed := true
                    scratch := setKeyIn st.scratch "general" o.name v }
    | .save =>
      let committed := updateConfig st.committed st.scratch
      match saveConfig st.fs st.path committed with
      | .ok fs' =>
        .ret { st with
               committed := committed
               fs := fs'
               msgs := st.msgs ++ [savedMsg] }
      | .error .fileNotFound =>
        .ret { st with
               committed := committed
               msgs := st.msgs ++ [unwritableMsg st.path] }
      | .error _ => .crashed
    | .other => .cont st

inductive EditResult where
  /-- The supplied interactions are exhausted and the loop is still waiting
  for input. -/
  | pending (s : EditState)
  | ret (s : EditState)
  | crashed
deriving DecidableEq, Repr

def runEdit (st : EditState) : List EditEvent → EditResult
  | [] => .pending st
  | ev :: evs =>
    match editStep st ev with
    | .cont s => runEdit s evs
    | .ret s => .ret s
    | .crashed => .crashed

/-- Model of `RAPTIC.__config_edit` entered from the main menu: the scratch copy is
seeded by `config_tmp.update(self.config)` and the dirty flag is clear. -/
def configEdit (committed : Config) (fs : FSModel) (path : String)
    (events : List EditEvent) : EditResult :=
  runEdit ⟨committed, updateConfig [] committed, false, fs, path, []⟩ events

/-! ## `RAPTIC.__rdesktop_start` -/

/-- Model of `'xinit {rdesktop} -u {user} {server} {fullscreen}'.format(...)`. -/
def rdesktopCommand (rdesktopPathStr user server : String) (fullscreen : Bool) : String :=
  "xinit " ++ rdesktopPathStr ++ " -u " ++ user ++ " " ++ server ++ " " ++
    (if fullscreen then "-f" else "")

/-- The command line built by `__rdesktop_start` once `which rdesktop`
succeeded with `rdesktopPathStr`.  `none` models the uncaught exceptions of
`config.get`/`config.getboolean` (missing key or non-boolean value). -/
def rdesktopStart (c : Config) (rdesktopPathStr : String) : Option String :=
  match pyGet c "general" "user", pyGet c "general" "server",
        getBoolean c "general" "fullscreen" with
  | some u, some s, some b => some (rdesktopCommand rdesktopPathStr u s b)
  | _, _, _ => none

/-! ## `RAPTIC.__menu` and the `run` loop -/

/-- Outcome of the blocking main-menu call (`nocancel=True`, so there is no
Cancel button, but ESC still yields a non-OK exit code). -/
inductive MenuResp where
  | ok (tag : String)
  | notOk
deriving DecidableEq, Repr

inductive RunStep where
  /-- Model of `self.exit(code)`: clear the screen and terminate with `code`. -/
  | exit (code : Nat)
  /-- Case where `__menu` returned `True`: the `run` loop shows the menu again. -/
  | cont
deriving DecidableEq, Repr

/-- One iteration of the `run` loop: `__menu` plus the `exit(0)` on a
`False` return.  `subFlow` abstracts what the selected sub-flow
(`__rdesktop_start`, `__config_edit`, `__desktop_environment_start`) does —
returning control or exiting the process itself. -/
def menuDispatch (resp : MenuResp) (subFlow : String → RunStep) : RunStep :=
  match resp with
  | .notOk => .exit 1
  | .ok tag =>
    if tag = "1" then subFlow "1"
    else if tag = "2" then subFlow "2"
    else if tag = "3" then subFlow "3"
    else if tag = "x" then .exit 0
    else .cont

/-- The fullscreen value stored in the scratch configuration. -/
def scratchFullscreen (c : Config) : Option String := pyGet c "general" "fullscreen"

/-- Invariant that `scratchFullscreen` is `yes` or `no`. -/
def FullscreenOK (c : Config) : Prop :=
  scratchFullscreen c = some "yes" ∨ scratchFullscreen c = some "no"

/-- The characters of the fullscreen flag `"-f"`. -/
def df : List Char := ['-', 'f']

/-- A key as `ConfigParser` stores it, writable and re-readable verbatim.
Keys are required to be ASCII: over ASCII strings `pyLower` agrees exactly
with the `str.lower()` of Python's `optionxform`, whose full Unicode case
mapping is not embedded. -/
def GoodKey (k : String) : Prop :=
  k ≠ "" ∧ trimLeftL k.data = k.data ∧ trimRightL k.data = k.data ∧
  pyLower k = k ∧
  (∀ c ∈ k.data, c ≠ '=' ∧ c ≠ ':' ∧ c ≠ '\n' ∧ c ≠ '\r' ∧ c.toNat < 128) ∧
  k.data.head? ≠ some '[' ∧ k.data.head? ≠ some '#' ∧ k.data.head? ≠ some ';'

/-- A value that survives the reader's stripping verbatim. -/
def GoodVal (v : String) : Prop :=
  trimLeftL v.data = v.data ∧ trimRightL v.data = v.data ∧
  '\n' ∉ v.data ∧ '\r' ∉ v.data

/-- A section name that survives the header syntax verbatim. -/
def GoodSecName (n : String) : Prop :=
  n ≠ "" ∧ n ≠ "DEFAULT" ∧ ']' ∉ n.data ∧ '\n' ∉ n.data ∧ '\r' ∉ n.data

def GoodSection (sec : IniSection) : Prop :=
  (∀ kv ∈ sec, GoodKey kv.1 ∧ GoodVal kv.2) ∧ (sec.map Prod.fst).Nodup

def GoodConfig (c : Config) : Prop :=
  (∀ sc ∈ c, GoodSecName sc.1 ∧ GoodSection sc.2) ∧ (c.map Prod.fst).Nodup

instance (k : String) : Decidable (GoodKey k) := by unfold GoodKey; infer_instance

instance (v : String) : Decidable (GoodVal v) := by unfold GoodVal; infer_instance

instance (n : String) : Decidable (GoodSecName n) := by
  unfold GoodSecName; infer_instance

instance (sec : IniSection) : Decidable (GoodSection sec) := by
  unfold GoodSection; infer_instance

instance (c : Config) : Decidable (GoodConfig c) := by
  unfold GoodConfig; infer_instance

/-- The `optname` in effect after reading a list of option lines. -/
def lastKeyOpt : List (String × String) → Option String → Option String
  | [], o => o
  | kv :: t, _ => lastKeyOpt t (some kv.1)

/-- The effect of the section-final blank line on the collected raw pairs. -/
def blankAdj : RawPairs → RawPairs
  | [] => []
  | (k, ls) :: t => (k, "" :: ls) :: t

/-- What one raw section looks like when end-of-file is reached. -/
def rawOfSec (sec : IniSection) : RawPairs :=
  blankAdj ((sec.map (fun kv => (kv.1, [kv.2]))).reverse)

/-- The pending-section part `flushCur` adds to `done`. -/
def flushExtra : Option CurSect → List (String × RawPairs)
  | some (.named n ps) => [(n, ps)]
  | _ => []

/-! ## Supporting lemmas -/

theorem trimLeftL_cons_of_not_ws {c : Char} (h : pyWhitespace c = false)
    (l : List Char) : trimLeftL (c :: l) = c :: l := by
  simp [trimLeftL, List.dropWhile, h]

theorem dropWhile_append_pw (p : Char → Bool) (l₁ l₂ : List Char) :
    List.dropWhile p (l₁ ++ l₂) =
      if List.dropWhile p l₁ = [] then List.dropWhile p l₂
      else List.dropWhile p l₁ ++ l₂ := by
  induction l₁ with
  | nil => simp
  | cons a t ih =>
    by_cases h : p a = true
    · simpa [List.dropWhile, h] using ih
    · simp [List.dropWhile, h]

theorem trimRightL_append (l r : List Char) :
    trimRightL (l ++ r) =
      if trimRightL r = [] then trimRightL l else l ++ trimRightL r := by
  unfold trimRightL
  rw [List.reverse_append, dropWhile_append_pw]
  by_cases h : List.dropWhile pyWhitespace r.reverse = []
  · simp [h]
  · have h' : (List.dropWhile pyWhitespace r.reverse).reverse ≠ [] := by
      simpa using h
    simp [h, h']

theorem trimRightL_append_singleton_ws {c : Char} (h : pyWhitespace c = true)
    (l : List Char) : trimRightL (l ++ [c]) = trimRightL l := by
  rw [trimRightL_append]
  simp [trimRightL, List.dropWhile, h]

theorem trimRightL_append_of_not_ws {c : Char} (h : pyWhitespace c = false)
    (l r : List Char) : trimRightL (l ++ (r ++ [c])) = l ++ (r ++ [c]) := by
  rw [trimRightL_append]
  have hr : trimRightL (r ++ [c]) = r ++ [c] := by
    unfold trimRightL
    simp [List.dropWhile, h]
  simp [hr]

theorem takeWhile_nil_of_not_ws {c : Char} (h : pyWhitespace c = false)
    (l : List Char) : List.takeWhile pyWhitespace (c :: l) = [] := by
  simp [List.takeWhile, h]

theorem lookupA_setA_self {α : Type} (l : List (String × α)) (k : String) (v : α) :
    lookupA (setA l k v) k = some v := by
  induction l with
  | nil => simp [setA, lookupA]
  | cons kv t ih =>
    by_cases h : kv.1 = k
    · simp [setA, h, lookupA]
    · simp [setA, h, lookupA, ih]

theorem lookupA_setA_ne {α : Type} (l : List (String × α)) {k k' : String}
    (h : k ≠ k') (v : α) : lookupA (setA l k v) k' = lookupA l k' := by
  induction l with
  | nil => simp [setA, lookupA, h]
  | cons kv t ih =>
    by_cases hk : kv.1 = k
    · simp [setA, hk, lookupA, h]
    · by_cases hk' : kv.1 = k'
      · simp [setA, hk, lookupA, hk', Ne.symm h]
      · simp [setA, hk, lookupA, hk', ih]

theorem lookupA_setKeyIn_self (c : Config) (s k v : String) :
    lookupA (setKeyIn c s k v) s = (lookupA c s).map (fun sec => setA sec k v) := by
  induction c with
  | nil => simp [setKeyIn, lookupA]
  | cons sc t ih =>
    by_cases h : sc.1 = s
    · simp [setKeyIn, h, lookupA]
    · simp [setKeyIn, h, lookupA, ih]



theorem lookupA_mem {α : Type} {l : List (String × α)} {k : String} {v : α}
    (h : lookupA l k = some v) : (k, v) ∈ l := by
  induction l with
  | nil => simp [lookupA] at h
  | cons kv t ih =>
    obtain ⟨k1, v1⟩ := kv
    by_cases hk : k1 = k
    · subst hk
      simp [lookupA] at h
      simp [h]
    · simp [lookupA, hk] at h
      exact List.mem_cons_of_mem _ (ih h)

theorem pyGet_setKeyIn (c : Config) (sn k k' v : String) :
    pyGet (setKeyIn c sn k v) sn k' =
      match lookupA c sn with
      | none => none
      | some sec => lookupA (setA sec k v) k' := by
  unfold pyGet
  rw [lookupA_setKeyIn_self]
  cases lookupA c sn <;> simp

/-! ## C1 -/

/-- C1: the claim that cancelling a required first-run input aborts the
whole flow with no file written is the code's own message, but the code
does not abort — it continues the wizard and writes the file.  Concrete
run: the user cancels the `Server` input and answers `bob` to the
`Username` input on a writable filesystem; the abort message is shown and
yet the wizard completes, returns, and the configuration file is written
with an empty `server` value. -/
theorem C1_first_run_cancel_still_writes_file :
    firstStart (fun n => if n = "server" then .cancel else .ok "bob") []
        ⟨[], []⟩ "/home/pi/.raptic" =
      ⟨[welcomeMsg, abortMsg, writtenMsg],
       [("general", [("server", ""), ("user", "bob"), ("fullscreen", "yes")])],
       ⟨[("/home/pi/.raptic",
          ["[general]", "server = ", "user = bob", "fullscreen = yes", ""])], []⟩,
       .returned⟩ := rfl

/-! ## C2 -/

/-- C2 counterexample: a loaded configuration whose `general` section is
present but empty (the file consists of the single line `[general]`) does
NOT trigger `FirstRun`: `sections()` is non-empty, so `run` goes straight
to the main menu. -/
theorem C2_empty_general_section_goes_to_main_menu :
    parseLines ["[general]"] = .ok [("general", [])] ∧
      startState [("general", [])] = .mainMenu ∧
      startState [("general", [])] ≠ .firstRun :=
  ⟨rfl, rfl, by decide⟩

/-- C2 amended: `FirstRun` is triggered exactly when the loaded
configuration has no sections at all; any configuration with at least one
section — in particular one with any key under `general`, but also one
whose `general` section is empty — goes to the main menu. -/
theorem C2_first_run_gating_amended :
    (∀ c : Config, startState c = .firstRun ↔ sectionsOf c = []) ∧
    (∀ (c : Config) (sec : IniSection), lookupA c "general" = some sec →
      startState c = .mainMenu) := by
  constructor
  · intro c
    by_cases h : sectionsOf c = [] <;> simp [startState, h]
  · intro c sec h
    cases c with
    | nil => simp [lookupA] at h
    | cons sc t => simp [startState, sectionsOf]

/-- C2 amended, witness: a configuration with one key under `general` goes
to the main menu. -/
theorem C2_first_run_gating_amended_witness :
    startState [("general", [("user", "bob")])] = .mainMenu :=
  C2_first_run_gating_amended.2 [("general", [("user", "bob")])] [("user", "bob")]
    (by decide)

/-! ## C3 -/

/-- C3 counterexample: a write error that is a `PermissionError` (path not
writable) is NOT caught — only `FileNotFoundError` is — so the first-run
save crashes the process instead of showing the message and exiting
cleanly. -/
theorem C3_permission_error_is_not_caught :
    (firstStart (fun _ => .ok "v") [] ⟨[], [("/home/pi/.raptic", .permissionDenied)]⟩
        "/home/pi/.raptic").outcome = .crashed .permissionDenied := rfl

/-- C3 amended: when the save fails with `FileNotFoundError` (e.g. the
directory is missing), the error is caught and surfaced: during first-run
the unwritable-path message is shown and the process exits with code 1,
the filesystem untouched; during edit-save it is non-fatal — the
unwritable-path message is shown and the controller returns to the main
menu with the file unsaved.  Write errors of other kinds
(`PermissionError`) are not caught and crash the process. -/
theorem C3_write_error_amended :
    (∀ (resp : String → InputResp) (cfg0 : Config) (fs : FSModel) (path : String),
      lookupA fs.writeErr path = some .fileNotFound →
        (firstStart resp cfg0 fs path).outcome = .exited 1 ∧
        (firstStart resp cfg0 fs path).fs = fs ∧
        unwritableMsg path ∈ (firstStart resp cfg0 fs path).msgs) ∧
    (∀ st : EditState, menuChoicesOK st.scratch = true →
      lookupA st.fs.writeErr st.path = some .fileNotFound →
        editStep st .save =
          .ret { st with
                 committed := updateConfig st.committed st.scratch
                 msgs := st.msgs ++ [unwritableMsg st.path] }) := by
  constructor
  · intro resp cfg0 fs path h
    simp [firstStart, saveConfig, h]
  · intro st hg h
    simp [editStep, hg, saveConfig, h]

/-- C3 amended, witness: first-run save onto a missing directory exits with
code 1. -/
theorem C3_write_error_amended_witness :
    (firstStart (fun _ => .ok "v") [] ⟨[], [("/p", .fileNotFound)]⟩ "/p").outcome
      = .exited 1 :=
  (C3_write_error_amended.1 (fun _ => .ok "v") [] ⟨[], [("/p", .fileNotFound)]⟩ "/p"
    (by decide)).1

/-! ## C5 -/

/-- C5: when `~/.raptic` exists (whether or not `~/.config/raptic` also
exists), `load()` returns its parsed content and remembers `~/.raptic` as
the save target. -/
theorem C5_load_priority :
    ∀ (fs : FSModel) (home : String) (lines : List String) (c : Config),
      lookupA fs.files (rapticPath home) = some lines →
      (lookupA fs.files (configRapticPath home)).isSome = true →
      parseLines lines = .ok c →
      readConfig fs home = .ok (c, rapticPath home) := by
  intro fs home lines c h1 _ hp
  simp [readConfig, h1, hp, Except.map]

/-- C5 witness: both candidates exist with different content; the first one
wins. -/
theorem C5_load_priority_witness :
    readConfig ⟨[("/h/.raptic", ["[general]", "a = b", ""]),
                 ("/h/.config/raptic", ["[general]", "c = d", ""])], []⟩ "/h" =
      .ok ([("general", [("a", "b")])], "/h/.raptic") :=
  C5_load_priority ⟨[("/h/.raptic", ["[general]", "a = b", ""]),
                     ("/h/.config/raptic", ["[general]", "c = d", ""])], []⟩
    "/h" ["[general]", "a = b", ""] [("general", [("a", "b")])]
    (by decide) (by decide) rfl

/-! ## C6 -/

/-- C6: when neither candidate file exists, `load()` returns an empty
configuration and remembers `~/.raptic` as the save target. -/
theorem C6_missing_files_default :
    ∀ (fs : FSModel) (home : String),
      lookupA fs.files (rapticPath home) = none →
      lookupA fs.files (configRapticPath home) = none →
      readConfig fs home = .ok ([], rapticPath home) := by
  intro fs home h1 h2
  simp [readConfig, h1, h2]

/-- C6 witness: the empty filesystem. -/
theorem C6_missing_files_default_witness :
    readConfig ⟨[], []⟩ "/h" = .ok ([], "/h/.raptic") :=
  C6_missing_files_default ⟨[], []⟩ "/h" (by decide) (by decide)

/-! ## C9 -/

/-- C9: choosing `Exit` ("x") in the main menu makes `__menu` return
`False`, upon which `run` terminates the process with exit code 0;
escaping the main menu (exit code other than OK) terminates with exit
code 1 — whatever the launch/edit sub-flows would do. -/
theorem C9_main_menu_exit_codes :
    ∀ subFlow : String → RunStep,
      menuDispatch (.ok "x") subFlow = .exit 0 ∧
      menuDispatch .notOk subFlow = .exit 1 := by
  intro subFlow
  exact ⟨rfl, rfl⟩

/-! ## C4 -/

/-- A non-`save` edit interaction never touches the committed
configuration. -/
theorem editStep_committed_of_ne_save (st : EditState) (ev : EditEvent)
    (hev : ev ≠ .save) (s : EditState)
    (h : editStep st ev = .cont s ∨ editStep st ev = .ret s) :
    s.committed = st.committed := by
  by_cases hg : menuChoicesOK st.scratch = true
  · cases ev with
    | save => exact absurd rfl hev
    | other =>
      rcases h with h | h <;> simp [editStep, hg] at h <;> simp [← h]
    | back c =>
      rcases h with h | h <;> simp [editStep, hg] at h <;> split_ifs at h <;>
        simp_all
    | pick label sresp bresp =>
      rcases h with h | h <;>
        simp [editStep, hg] at h <;>
        (repeat' split at h) <;> simp_all <;> simp [← h]
  · rcases h with h | h <;> simp [editStep, hg] at h

/-- C4: the edit flow operates only on the scratch copy — for any sequence
of interactions that never presses `SAVE` (in particular, changing a value
then pressing `BACK`, with the discard confirmation either declined or
confirmed), the committed configuration when the flow ends (or while it is
still looping) is exactly the one it started with; and the `SAVE` action is
the one that merges the scratch copy into the committed configuration. -/
theorem C4_edit_isolation :
    (∀ (st : EditState) (evs : List EditEvent) (s : EditState),
      EditEvent.save ∉ evs →
      (runEdit st evs = .pending s ∨ runEdit st evs = .ret s) →
      s.committed = st.committed) ∧
    (∀ st s : EditState, editStep st .save = .ret s →
      s.committed = updateConfig st.committed st.scratch) := by
  constructor
  · intro st evs
    induction evs generalizing st with
    | nil =>
      intro s _ h
      rcases h with h | h <;> simp [runEdit] at h <;> simp [h]
    | cons ev evs ih =>
      intro s hnotin h
      have hev : ev ≠ .save := fun e => hnotin (by simp [e])
      have hevs : EditEvent.save ∉ evs := fun m => hnotin (List.mem_cons_of_mem _ m)
      cases hstep : editStep st ev with
      | crashed =>
        rcases h with h | h <;> simp [runEdit, hstep] at h
      | cont s1 =>
        have h1 : runEdit s1 evs = .pending s ∨ runEdit s1 evs = .ret s := by
          rcases h with h | h <;> simp [runEdit, hstep] at h <;> simp [h]
        have h2 := ih s1 s hevs h1
        have h3 := editStep_committed_of_ne_save st ev hev s1 (Or.inl hstep)
        rw [h2, h3]
      | ret s1 =>
        have h1 : s = s1 := by
          rcases h with h | h <;> simp [runEdit, hstep] at h <;> simp [h]
        subst h1
        exact editStep_committed_of_ne_save st ev hev s (Or.inr hstep)
  · intro st s h
    by_cases hg : menuChoicesOK st.scratch = true
    · simp [editStep, hg] at h
      split at h <;> simp_all
      all_goals subst h; rfl
    · simp [editStep, hg] at h

/-- C4 witness: starting the edit flow on a committed configuration,
changing `Server` in the scratch copy, then pressing `BACK` and confirming
the discard leaves the committed configuration unchanged. -/
theorem C4_edit_isolation_witness :
    (EditState.mk
      [("general", [("server", "10.0.0.5"), ("user", "bob"), ("fullscreen", "yes")])]
      [("general", [("server", "s2"), ("user", "bob"), ("fullscreen", "yes")])]
      true ⟨[], []⟩ "/p" []).committed =
    (EditState.mk
      [("general", [("server", "10.0.0.5"), ("user", "bob"), ("fullscreen", "yes")])]
      [("general", [("server", "10.0.0.5"), ("user", "bob"), ("fullscreen", "yes")])]
      false ⟨[], []⟩ "/p" []).committed :=
  C4_edit_isolation.1
    ⟨[("general", [("server", "10.0.0.5"), ("user", "bob"), ("fullscreen", "yes")])],
     [("general", [("server", "10.0.0.5"), ("user", "bob"), ("fullscreen", "yes")])],
     false, ⟨[], []⟩, "/p", []⟩
    [.pick "Server" (.ok "s2") none, .back true]
    ⟨[("general", [("server", "10.0.0.5"), ("user", "bob"), ("fullscreen", "yes")])],
     [("general", [("server", "s2"), ("user", "bob"), ("fullscreen", "yes")])],
     true, ⟨[], []⟩, "/p", []⟩
    (by decide) (Or.inr (by decide))

/-! ## C10 -/

/-- Every option reachable through the label dictionary is one of the three
schema options. -/
theorem lookup_configuration_options {label : String} {o : ConfigOption}
    (h : lookupA configuration_options label = some o) :
    o = ⟨"server", "Server", "Hostname or IP-Address of the ThinClient-Host-Server",
         false, "", true⟩ ∨
    o = ⟨"user", "Username", "Username of the user that should be used by this ThinClient",
         false, "", true⟩ ∨
    o = ⟨"fullscreen", "Fullscreen", "Run rdesktop in fullscreen mode (default: yes)",
         true, "yes", false⟩ := by
  have hm := lookupA_mem h
  simp [configuration_options] at hm
  rcases hm with ⟨_, h2⟩ | ⟨_, h2⟩ | ⟨_, h2⟩ <;> simp [h2]

/-- Setting a key other than `fullscreen` preserves the fullscreen
invariant. -/
theorem FullscreenOK_setKeyIn_ne (c : Config) {k : String} (hk : k ≠ "fullscreen")
    (v : String) (h : FullscreenOK c) :
    FullscreenOK (setKeyIn c "general" k v) := by
  unfold FullscreenOK scratchFullscreen at h ⊢
  rw [pyGet_setKeyIn]
  rcases hl : lookupA c "general" with _ | sec
  · simp [pyGet, hl] at h
  · simp only []
    rw [lookupA_setA_ne sec hk v]
    simpa [pyGet, hl] using h

/-- Setting `fullscreen` to `yes` or `no` establishes the fullscreen
invariant (provided the `general` section exists). -/
theorem FullscreenOK_set_fullscreen (c : Config) (v : String)
    (hv : v = "yes" ∨ v = "no") (h : FullscreenOK c) :
    FullscreenOK (setKeyIn c "general" "fullscreen" v) := by
  unfold FullscreenOK scratchFullscreen at h ⊢
  rw [pyGet_setKeyIn]
  rcases hl : lookupA c "general" with _ | sec
  · simp [pyGet, hl] at h
  · simp only []
    rw [lookupA_setA_self]
    rcases hv with hv | hv <;> simp [hv]

/-- One edit interaction preserves the fullscreen invariant of the scratch
copy: a confirmed boolean edit stores exactly `yes` or `no`, and string
edits touch only the `server`/`user` keys. -/
theorem editStep_fullscreen (st : EditState) (ev : EditEvent) (s : EditState)
    (h : editStep st ev = .cont s ∨ editStep st ev = .ret s)
    (hfs : FullscreenOK st.scratch) : FullscreenOK s.scratch := by
  by_cases hg : menuChoicesOK st.scratch = true
  · cases ev with
    | save =>
      rcases h with h | h
      · simp [editStep, hg] at h
        split at h <;> simp_all
      · simp [editStep, hg] at h
        split at h <;> simp_all
        all_goals rw [← h]; exact hfs
    | other =>
      rcases h with h | h <;> simp [editStep, hg] at h
      rw [← h]; exact hfs
    | back c =>
      rcases h with h | h <;> simp [editStep, hg] at h <;> split_ifs at h <;>
        (try rw [← h]) <;> (try exact hfs) <;> simp_all
    | pick label sresp bresp =>
      rcases hlook : lookupA configuration_options label with _ | o
      · rcases h with h | h <;> simp [editStep, hg, hlook] at h
      · have ho3 := lookup_configuration_options hlook
        rcases h with h | h
        · rcases ho3 with ho | ho | ho <;> subst ho
          · -- `Server`, a string option
            rcases sresp with v | _ <;> simp [editStep, hg, hlook] at h <;> rw [← h]
            · exact FullscreenOK_setKeyIn_ne st.scratch (by decide) v hfs
            · exact hfs
          · -- `Username`, a string option
            rcases sresp with v | _ <;> simp [editStep, hg, hlook] at h <;> rw [← h]
            · exact FullscreenOK_setKeyIn_ne st.scratch (by decide) v hfs
            · exact hfs
          · -- `Fullscreen`, the boolean option: the radiolist offers only
            -- the tags `yes` and `no`
            rcases hb : getBoolean st.scratch "general" "fullscreen" with _ | cb
            · simp [editStep, hg, hlook, hb] at h
            · rcases bresp with _ | b <;> simp [editStep, hg, hlook, hb] at h <;>
                rw [← h]
              · exact hfs
              · exact FullscreenOK_set_fullscreen st.scratch _
                  (by cases b <;> simp) hfs
        · -- a `pick` interaction never returns to the main menu
          rcases ho3 with ho | ho | ho <;> subst ho
          · rcases sresp <;> simp [editStep, hg, hlook] at h
          · rcases sresp <;> simp [editStep, hg, hlook] at h
          · rcases hb : getBoolean st.scratch "general" "fullscreen" with _ | cb
            · simp [editStep, hg, hlook, hb] at h
            · rcases bresp <;> simp [editStep, hg, hlook, hb] at h
  · rcases h with h | h <;> simp [editStep, hg] at h

/-- C10: for every confirmed boolean-option edit the scratch copy stores
exactly `yes` or `no` — along any sequence of edit interactions, if the
fullscreen value starts in `{yes, no}` it stays in `{yes, no}`. -/
theorem C10_fullscreen_invariant :
    ∀ (st : EditState) (evs : List EditEvent) (s : EditState),
      FullscreenOK st.scratch →
      (runEdit st evs = .pending s ∨ runEdit st evs = .ret s) →
      FullscreenOK s.scratch := by
  intro st evs
  induction evs generalizing st with
  | nil =>
    intro s hfs h
    rcases h with h | h <;> simp [runEdit] at h <;> rw [← h] <;> exact hfs
  | cons ev evs ih =>
    intro s hfs h
    cases hstep : editStep st ev with
    | crashed =>
      rcases h with h | h <;> simp [runEdit, hstep] at h
    | cont s1 =>
      have h1 : runEdit s1 evs = .pending s ∨ runEdit s1 evs = .ret s := by
        rcases h with h | h <;> simp [runEdit, hstep] at h <;> simp [h]
      exact ih s1 s (editStep_fullscreen st ev s1 (Or.inl hstep) hfs) h1
    | ret s1 =>
      have h1 : s = s1 := by
        rcases h with h | h <;> simp [runEdit, hstep] at h <;> simp [h]
      subst h1
      exact editStep_fullscreen st ev s (Or.inr hstep) hfs

/-- C10 witness: a confirmed radiolist edit switching fullscreen to `no`
keeps the scratch value in `{yes, no}`. -/
theorem C10_fullscreen_invariant_witness :
    FullscreenOK
      [("general", [("server", "a"), ("user", "b"), ("fullscreen", "no")])] :=
  C10_fullscreen_invariant
    ⟨[("general", [("server", "a"), ("user", "b"), ("fullscreen", "yes")])],
     [("general", [("server", "a"), ("user", "b"), ("fullscreen", "yes")])],
     false, ⟨[], []⟩, "/p", []⟩
    [.pick "Fullscreen" .cancel (some false)]
    ⟨[("general", [("server", "a"), ("user", "b"), ("fullscreen", "yes")])],
     [("general", [("server", "a"), ("user", "b"), ("fullscreen", "no")])],
     true, ⟨[], []⟩, "/p", []⟩
    (Or.inl (by decide)) (Or.inl (by decide))

/-! ## C7 -/

theorem containsSub_nil_needle (l : List Char) : containsSub l [] = true := by
  cases l <;> simp [containsSub, isPrefixOfC]

theorem isPrefixOfC_append_self (p ys : List Char) :
    isPrefixOfC p (p ++ ys) = true := by
  induction p with
  | nil => simp [isPrefixOfC]
  | cons a t ih => simp [isPrefixOfC, ih]

/-- Any list of the form `xs ++ (p ++ ys)` contains `p`. -/
theorem containsSub_append_of (xs p ys : List Char) :
    containsSub (xs ++ (p ++ ys)) p = true := by
  induction xs with
  | nil =>
    simp only [List.nil_append]
    cases p with
    | nil => exact containsSub_nil_needle ys
    | cons q qt =>
      show containsSub (q :: (qt ++ ys)) (q :: qt) = true
      simp [containsSub, isPrefixOfC, isPrefixOfC_append_self]
  | cons x xst ih =>
    simp [containsSub, ih]

/-- The string `"-f"` does not appear in `xs ++ ys` when it appears in neither part and
cannot straddle the border (the last character of `xs` is not `'-'`, or the
first of `ys` is not `'f'`). -/
theorem containsSub_append_no_straddle (xs ys : List Char)
    (hx : containsSub xs df = false) (hy : containsSub ys df = false)
    (hb : lastChar? xs = some '-' → ys.head? ≠ some 'f') :
    containsSub (xs ++ ys) df = false := by
  induction xs with
  | nil => simpa using hy
  | cons a t ih =>
    have hx' : isPrefixOfC df (a :: t) = false ∧ containsSub t df = false := by
      have e : containsSub (a :: t) df = (isPrefixOfC df (a :: t) || containsSub t df) :=
        rfl
      rw [e] at hx
      exact Bool.or_eq_false_iff.mp hx
    have hrest : containsSub (t ++ ys) df = false := by
      apply ih hx'.2
      intro hl
      apply hb
      cases t with
      | nil => simp [lastChar?] at hl
      | cons c t2 => exact hl
    have e2 : containsSub ((a :: t) ++ ys) df =
        (isPrefixOfC df (a :: (t ++ ys)) || containsSub (t ++ ys) df) := rfl
    rw [e2, hrest, Bool.or_false]
    cases t with
    | cons c t2 =>
      have e3 : isPrefixOfC df (a :: ((c :: t2) ++ ys)) =
          (decide ('-' = a) && (decide ('f' = c) && isPrefixOfC [] (t2 ++ ys))) := rfl
      have e4 : isPrefixOfC df (a :: c :: t2) =
          (decide ('-' = a) && (decide ('f' = c) && isPrefixOfC [] t2)) := rfl
      rw [e4] at hx'
      rw [e3]
      simpa [isPrefixOfC] using (by simpa [isPrefixOfC] using hx'.1 :
        (decide ('-' = a) && decide ('f' = c)) = false)
    | nil =>
      by_cases ha : a = '-'
      · subst ha
        have hys : ys.head? ≠ some 'f' := hb rfl
        cases ys with
        | nil => simp [isPrefixOfC, df]
        | cons y yt =>
          have hyf : ('f' = y) = False := by
            simp only [List.head?_cons, ne_eq, Option.some.injEq] at hys
            simp [eq_comm, hys]
          have e5 : isPrefixOfC df ('-' :: ([] ++ (y :: yt))) =
              (decide ('-' = '-') && (decide ('f' = y) && isPrefixOfC [] yt)) := rfl
          have hd : decide ('f' = y) = false := by simp [hyf]
          rw [e5, hd]
          simp
      · have e6 : isPrefixOfC df (a :: ([] ++ ys)) =
            (decide ('-' = a) && isPrefixOfC ['f'] ys) := rfl
        have hd : decide ('-' = a) = false := by simp [eq_comm, ha]
        rw [e6, hd]
        simp

/-- When the fullscreen flag is off, the command contains `"-f"` only if the
executable path, user or server contains it. -/
theorem rdesktopCommand_no_flag (p u s : String)
    (hp : containsSub p.data df = false) (hu : containsSub u.data df = false)
    (hs : containsSub s.data df = false) :
    containsSub (rdesktopCommand p u s false).data df = false := by
  have hcmd : (rdesktopCommand p u s false).data =
      ['x', 'i', 'n', 'i', 't', ' '] ++ (p.data ++ ([' ', '-', 'u', ' '] ++
        (u.data ++ ([' '] ++ (s.data ++ [' ']))))) := by
    simp [rdesktopCommand, String.data_append]
  rw [hcmd]
  apply containsSub_append_no_straddle _ _ (by decide)
  · apply containsSub_append_no_straddle _ _ hp
    · apply containsSub_append_no_straddle _ _ (by decide)
      · apply containsSub_append_no_straddle _ _ hu
        · apply containsSub_append_no_straddle _ _ (by decide)
          · apply containsSub_append_no_straddle _ _ hs
            · decide
            · intro _
              simp
          · intro h
            simp [lastChar?] at h
        · intro _
          simp
      · intro h
        simp [lastChar?] at h
    · intro _
      simp
  · intro h
    simp [lastChar?] at h

/-- When the fullscreen flag is on, the command ends in `"-f"`. -/
theorem rdesktopCommand_flag (p u s : String) :
    ContainsStr (rdesktopCommand p u s true) "-f" := by
  unfold ContainsStr
  have hcmd : (rdesktopCommand p u s true).data =
      ("xinit " ++ p ++ " -u " ++ u ++ " " ++ s ++ " ").data ++
        ("-f".data ++ []) := by
    simp [rdesktopCommand, String.data_append]
  rw [hcmd]
  exact containsSub_append_of _ _ _

/-- The command always contains `-u <user> <server>`. -/
theorem rdesktopCommand_contains_user_server (p u s : String) (b : Bool) :
    ContainsStr (rdesktopCommand p u s b) ("-u " ++ u ++ " " ++ s) := by
  unfold ContainsStr
  have hcmd : (rdesktopCommand p u s b).data =
      (['x', 'i', 'n', 'i', 't', ' '] ++ (p.data ++ [' '])) ++
        (("-u " ++ u ++ " " ++ s).data ++
          ([' '] ++ (if b then "-f" else "" : String).data)) := by
    cases b <;> simp [rdesktopCommand, String.data_append]
  rw [hcmd]
  exact containsSub_append_of _ _ _

/-- C7 counterexample: with user `-f`, server `srv` and fullscreen `no`, the
constructed command line contains the substring `-f` even though the
fullscreen option is false, so the claimed "if and only if" fails. -/
theorem C7_flag_iff_fails :
    rdesktopStart
        [("general", [("server", "srv"), ("user", "-f"), ("fullscreen", "no")])]
        "/usr/bin/rdesktop" = some "xinit /usr/bin/rdesktop -u -f srv " ∧
      getBoolean
        [("general", [("server", "srv"), ("user", "-f"), ("fullscreen", "no")])]
        "general" "fullscreen" = some false ∧
      ContainsStr "xinit /usr/bin/rdesktop -u -f srv " "-f" :=
  ⟨rfl, rfl, by decide⟩

/-- C7 amended: for every configured user and server the command line
contains `-u <user> <server>`; if fullscreen is true the flag `-f` is
appended (so the command contains it); and whenever the executable path,
user and server do not themselves contain the substring `-f` (as with the
spec's `alice`/`10.0.0.5`), the command contains `-f` if and only if the
fullscreen option is true. -/
theorem C7_launch_arguments_amended :
    ∀ (c : Config) (p u s fsv : String) (b : Bool),
      pyGet c "general" "user" = some u →
      pyGet c "general" "server" = some s →
      pyGet c "general" "fullscreen" = some fsv →
      convertToBoolean fsv = some b →
      '%' ∉ u.data → '%' ∉ s.data →
      rdesktopStart c p = some (rdesktopCommand p u s b) ∧
      ContainsStr (rdesktopCommand p u s b) ("-u " ++ u ++ " " ++ s) ∧
      (b = true → ContainsStr (rdesktopCommand p u s b) "-f") ∧
      (¬ ContainsStr p "-f" → ¬ ContainsStr u "-f" → ¬ ContainsStr s "-f" →
        (ContainsStr (rdesktopCommand p u s b) "-f" ↔ b = true)) := by
  intro c p u s fsv b hu hs hf hb _ _
  refine ⟨?_, rdesktopCommand_contains_user_server p u s b, ?_, ?_⟩
  · simp [rdesktopStart, getBoolean, hu, hs, hf, hb]
  · intro h
    subst h
    exact rdesktopCommand_flag p u s
  · intro hp' hu' hs'
    constructor
    · intro hc
      cases b with
      | true => rfl
      | false =>
        exfalso
        have hp2 : containsSub p.data df = false := by
          simpa [ContainsStr, df] using hp'
        have hu2 : containsSub u.data df = false := by
          simpa [ContainsStr, df] using hu'
        have hs2 : containsSub s.data df = false := by
          simpa [ContainsStr, df] using hs'
        have hno := rdesktopCommand_no_flag p u s hp2 hu2 hs2
        have hc2 : containsSub (rdesktopCommand p u s false).data df = true := hc
        rw [hno] at hc2
        exact Bool.false_ne_true hc2
    · intro h
      subst h
      exact rdesktopCommand_flag p u s

/-- C7 amended, witness: the spec's example `alice`/`10.0.0.5`. -/
theorem C7_launch_arguments_amended_witness :
    ContainsStr (rdesktopCommand "/usr/bin/rdesktop" "alice" "10.0.0.5" true)
        "-u alice 10.0.0.5" ∧
      ContainsStr (rdesktopCommand "/usr/bin/rdesktop" "alice" "10.0.0.5" true)
        "-f" := by
  have h := C7_launch_arguments_amended
    [("general", [("server", "10.0.0.5"), ("user", "alice"), ("fullscreen", "yes")])]
    "/usr/bin/rdesktop" "alice" "10.0.0.5" "yes" true
    rfl rfl rfl rfl (by decide) (by decide)
  exact ⟨h.2.1, h.2.2.1 rfl⟩

/-! ## C8: round-tripping `write` through `read`

`ConfigParser.read` strips the surrounding whitespace of every value it
parses — whitespace in the sense of Python's `str.strip()`, the full
Unicode `str.isspace()` class embedded by `pyWhitespace` — so byte-exact
round-tripping needs the written values to carry no leading/trailing
whitespace; the keys written must also survive the option-line syntax (no
delimiters, not comment- or header-shaped, already lower-case, and ASCII so
that the embedded `optionxform` lower-casing is exact — as every key this
program writes is). -/

/-! ### Small string facts -/

theorem mk_data (s : String) : (⟨s.data⟩ : String) = s := rfl

theorem data_ne_nil {k : String} (h : k ≠ "") : k.data ≠ [] := by
  intro hd
  exact h (by cases k; simp_all)

theorem head_not_ws_of_trimLeft {c : Char} {t : List Char}
    (h : trimLeftL (c :: t) = c :: t) : pyWhitespace c = false := by
  by_cases hc : pyWhitespace c = true
  · exfalso
    have hlen := congrArg List.length h
    rw [trimLeftL, List.dropWhile_cons, if_pos hc] at hlen
    have := (List.dropWhile_sublist (p := pyWhitespace) (l := t)).length_le
    simp at hlen
    omega
  · simpa using hc

theorem trimRightL_append_right {r : List Char} (h : trimRightL r = r)
    (hne : r ≠ []) (l : List Char) : trimRightL (l ++ r) = l ++ r := by
  rw [trimRightL_append]
  rw [h]
  simp [hne]

theorem replaceNlTab_eq_self {l : List Char} (h : '\n' ∉ l) :
    replaceNlTab l = l := by
  induction l with
  | nil => rfl
  | cons c t ih =>
    have hc : c ≠ '\n' := fun e => h (by simp [e])
    have ht : '\n' ∉ t := fun m => h (List.mem_cons_of_mem _ m)
    simp [replaceNlTab, hc, ih ht]

theorem takeUntilRB_append {l : List Char} (h : ']' ∉ l) (r : List Char) :
    takeUntilRB (l ++ (']' :: r)) = some l := by
  induction l with
  | nil => simp [takeUntilRB]
  | cons c t ih =>
    have hc : c ≠ ']' := fun e => h (by simp [e])
    have ht : ']' ∉ t := fun m => h (List.mem_cons_of_mem _ m)
    simp [takeUntilRB, hc, ih ht]

theorem splitDelim_append {l : List Char} (h : ∀ c ∈ l, c ∉ delims)
    (r : List Char) : splitDelim (l ++ ('=' :: r)) = some (l, r) := by
  induction l with
  | nil => simp [splitDelim, delims]
  | cons c t ih =>
    have hc : c ∉ delims := h c (by simp)
    have ht : ∀ x ∈ t, x ∉ delims := fun x m => h x (List.mem_cons_of_mem _ m)
    simp [splitDelim, hc, ih ht]

/-! ### Reading back one written option line -/

theorem lineStep_option_line
    (done : List (String × RawPairs)) (seen : List String) (defs : RawPairs)
    (n : String) (ps : RawPairs) (o : Option String)
    {k v : String} (hk : GoodKey k) (hv : GoodVal v)
    (hdup : k ∉ ps.map Prod.fst) :
    lineStep ⟨done, seen, defs, some (.named n ps), o, 0⟩ (pairLine (k, v)) =
      .ok ⟨done, seen, defs, some (.named n ((k, [v]) :: ps)), some k, 0⟩ := by
  obtain ⟨hk0, hkl, hkr, hklow, hkchars, hkh1, hkh2, hkh3⟩ := hk
  obtain ⟨hvl, hvr, hvn, hvrr⟩ := hv
  obtain ⟨c, t, hK⟩ : ∃ c t, k.data = c :: t := by
    rcases hd : k.data with _ | ⟨c, t⟩
    · exact absurd hd (data_ne_nil hk0)
    · exact ⟨c, t, rfl⟩
  have hcw : pyWhitespace c = false := head_not_ws_of_trimLeft (hK ▸ hkl)
  have hcb : c ≠ '[' := fun e => hkh1 (by simp [hK, e])
  have hcc : c ≠ '#' := fun e => hkh2 (by simp [hK, e])
  have hcs : c ≠ ';' := fun e => hkh3 (by simp [hK, e])
  have hfree : ∀ x ∈ k.data ++ [' '], x ∉ delims := by
    intro x hx
    rcases List.mem_append.mp hx with hx | hx
    · have := hkchars x hx
      simp [delims]
      exact ⟨this.1, this.2.1⟩
    · simp at hx
      simp [hx, delims]
  have hsp : (" = " : String).data = [' ', '=', ' '] := rfl
  have hline : (pairLine (k, v)).data = k.data ++ ([' ', '=', ' '] ++ v.data) := by
    simp [pairLine, replaceNlTab_eq_self hvn, String.data_append, hsp]
  have hkey : pyLower ⟨trimRightL (k.data ++ [' '])⟩ = k := by
    rw [trimRightL_append_singleton_ws (by decide), hkr, mk_data, hklow]
  have hkne : k.data ++ [' '] ≠ [] := by simp
  rcases hvd : v.data with _ | ⟨w, vt⟩
  · -- empty value: the line is `k ++ " = "` and it re-reads as value `""`
    have hveq : v = "" := by
      cases v
      simp_all
    have hline0 : (pairLine (k, v)).data = k.data ++ [' ', '=', ' '] := by
      rw [hline, hvd]
      simp
    have hstrip' : stripL (k.data ++ [' ', '=', ' ']) =
        (k.data ++ [' ']) ++ ('=' :: []) := by
      unfold stripL
      have e1 : k.data ++ [' ', '=', ' '] =
          (k.data ++ ([' '] ++ ['='])) ++ [' '] := by simp
      rw [e1, trimRightL_append_singleton_ws (by decide),
        trimRightL_append_of_not_ws (by decide)]
      rw [hK]
      rw [show (c :: t) ++ ([' '] ++ ['=']) = c :: (t ++ ([' '] ++ ['='])) from rfl]
      rw [trimLeftL_cons_of_not_ws hcw]
      simp
    have hcomment : isCommentLine (k.data ++ [' ', '=']) = false := by
      rw [hK]
      simp [isCommentLine, hcc, hcs]
    have hind : List.takeWhile pyWhitespace (k.data ++ [' ', '=', ' ']) = [] := by
      rw [hK]
      exact takeWhile_nil_of_not_ws hcw _
    have hhdr : sectionHeader? (k.data ++ [' ', '=']) = none := by
      rw [hK]
      simp [sectionHeader?, hcb]
    have hsplit : splitDelim (k.data ++ [' ', '=']) =
        some (k.data ++ [' '], []) := by
      simpa using splitDelim_append hfree []
    have hpost0 : (⟨stripL ([] : List Char)⟩ : String) = v := by
      rw [hveq]
      rfl
    simp only [lineStep, hline0, hstrip']
    cases o <;>
      simp [hcomment, hind, headerOrOption, hhdr, hsplit, hkey, curKeys,
        hdup, insertOpt, hpost0]
  · -- non-empty value
    have hvne : v.data ≠ [] := by rw [hvd]; simp
    have hline0 : (pairLine (k, v)).data = k.data ++ ([' ', '=', ' '] ++ v.data) :=
      hline
    have hstrip' : stripL (k.data ++ ([' ', '=', ' '] ++ v.data)) =
        (k.data ++ [' ']) ++ ('=' :: (' ' :: v.data)) := by
      unfold stripL
      have e1 : k.data ++ ([' ', '=', ' '] ++ v.data) =
          (k.data ++ [' ', '=', ' ']) ++ v.data := by simp
      rw [e1, trimRightL_append_right hvr hvne]
      rw [hK]
      rw [show ((c :: t) ++ [' ', '=', ' ']) ++ v.data =
        c :: ((t ++ [' ', '=', ' ']) ++ v.data) from rfl]
      rw [trimLeftL_cons_of_not_ws hcw]
      simp
    have hpost : (⟨stripL (' ' :: v.data)⟩ : String) = v := by
      unfold stripL
      rw [show (' ' :: v.data) = [' '] ++ v.data from rfl,
        trimRightL_append_right hvr hvne]
      rw [show ([' '] ++ v.data) = ' ' :: v.data from rfl]
      unfold trimLeftL
      rw [List.dropWhile_cons]
      simp only [show pyWhitespace ' ' = true from rfl, if_true]
      rw [show List.dropWhile pyWhitespace v.data = trimLeftL v.data from rfl, hvl]
    have hcomment : isCommentLine (k.data ++ ' ' :: '=' :: ' ' :: v.data) =
        false := by
      rw [hK]
      simp [isCommentLine, hcc, hcs]
    have hind : List.takeWhile pyWhitespace
        (k.data ++ ' ' :: '=' :: ' ' :: v.data) = [] := by
      rw [hK]
      exact takeWhile_nil_of_not_ws hcw _
    have hhdr : sectionHeader? (k.data ++ ' ' :: '=' :: ' ' :: v.data) =
        none := by
      rw [hK]
      simp [sectionHeader?, hcb]
    have hsplit : splitDelim (k.data ++ ' ' :: '=' :: ' ' :: v.data) =
        some (k.data ++ [' '], ' ' :: v.data) := by
      simpa using splitDelim_append hfree (' ' :: v.data)
    simp only [lineStep, hline0, hstrip']
    cases o <;>
      simp [hcomment, hind, headerOrOption, hhdr, hsplit, hkey, curKeys,
        hdup, insertOpt, hpost]

/-! ### Reading back one written section header -/

theorem lineStep_header_line
    (done : List (String × RawPairs)) (seen : List String) (defs : RawPairs)
    (cur : Option CurSect) (o : Option String) (ind : Nat)
    {nm : String} (hn : GoodSecName nm) (hseen : nm ∉ seen) :
    lineStep ⟨done, seen, defs, cur, o, ind⟩ ("[" ++ nm ++ "]") =
      .ok { flushCur ⟨done, seen, defs, cur, o, 0⟩ with
            cur := some (.named nm [])
            seen := seen ++ [nm]
            optname := none } := by
  obtain ⟨hn0, hnD, hnR, hnN, hnr⟩ := hn
  have hdata : ("[" ++ nm ++ "]").data = '[' :: (nm.data ++ [']']) := by
    simp [String.data_append]
  have hstrip : stripL ('[' :: (nm.data ++ [']'])) = '[' :: (nm.data ++ [']']) := by
    unfold stripL
    rw [show ('[' :: (nm.data ++ [']'])) = ['['] ++ (nm.data ++ [']']) from rfl,
      trimRightL_append_of_not_ws (by decide)]
    rw [show (['['] ++ (nm.data ++ [']'])) = '[' :: (nm.data ++ [']']) from rfl,
      trimLeftL_cons_of_not_ws (by decide)]
  have hind2 : List.takeWhile pyWhitespace ('[' :: (nm.data ++ [']'])) = [] :=
    takeWhile_nil_of_not_ws (by decide) _
  have hhdr : sectionHeader? ('[' :: (nm.data ++ [']'])) = some nm := by
    have ht : takeUntilRB (nm.data ++ (']' :: [])) = some nm.data :=
      takeUntilRB_append hnR []
    simp [sectionHeader?, ht, data_ne_nil hn0, mk_data]
  simp only [lineStep, hdata, hstrip]
  cases cur <;> cases o <;>
    simp [hind2, isCommentLine, headerOrOption, hhdr, hseen, hnD]

/-! ### Reading back the blank line ending each section -/

theorem lineStep_blank_line
    (done : List (String × RawPairs)) (seen : List String) (defs : RawPairs)
    (n k0 : String) (ls : List String) (ps : RawPairs) (ind : Nat) :
    lineStep ⟨done, seen, defs, some (.named n ((k0, ls) :: ps)), some k0, ind⟩ "" =
      .ok ⟨done, seen, defs, some (.named n ((k0, "" :: ls) :: ps)), some k0, ind⟩ := by
  simp [lineStep, stripL, trimLeftL, trimRightL, isCommentLine, appendToCurrent,
    appendLineTo]

theorem lineStep_blank_line_no_opt
    (done : List (String × RawPairs)) (seen : List String) (defs : RawPairs)
    (cur : Option CurSect) (ind : Nat) :
    lineStep ⟨done, seen, defs, cur, none, ind⟩ "" =
      .ok ⟨done, seen, defs, cur, none, ind⟩ := by
  cases cur <;>
    simp [lineStep, stripL, trimLeftL, trimRightL, isCommentLine]

/-! ### Reading back whole sections -/

theorem runLines_append (l1 : List String) :
    ∀ (st : PState) (l2 : List String),
      runLines st (l1 ++ l2) =
        match runLines st l1 with
        | .ok st' => runLines st' l2
        | .error e => .error e := by
  induction l1 with
  | nil =>
    intro st l2
    simp [runLines]
  | cons l ls ih =>
    intro st l2
    rw [List.cons_append]
    cases hls : lineStep st l with
    | ok st' => simp [runLines, hls, ih st' l2]
    | error e => simp [runLines, hls]

theorem lastKeyOpt_append_last (l : List (String × String)) (kv : String × String) :
    ∀ o, lastKeyOpt (l ++ [kv]) o = some kv.1 := by
  induction l with
  | nil => intro o; simp [lastKeyOpt]
  | cons x t ih => intro o; simpa [lastKeyOpt] using ih (some x.1)

theorem runLines_pairs (pairs : List (String × String)) :
    ∀ (acc : RawPairs) (o : Option String) (done : List (String × RawPairs))
      (seen : List String) (defs : RawPairs) (n : String) (rest : List String),
      (∀ kv ∈ pairs, GoodKey kv.1 ∧ GoodVal kv.2) →
      (List.map Prod.fst pairs).Nodup →
      (∀ kv ∈ pairs, kv.1 ∉ acc.map Prod.fst) →
      runLines ⟨done, seen, defs, some (.named n acc), o, 0⟩
          (pairs.map pairLine ++ rest) =
        runLines ⟨done, seen, defs,
            some (.named n
              ((pairs.map (fun kv => (kv.1, [kv.2]))).reverse ++ acc)),
            lastKeyOpt pairs o, 0⟩ rest := by
  induction pairs with
  | nil =>
    intro acc o done seen defs n rest _ _ _
    simp [lastKeyOpt]
  | cons kv t ih =>
    intro acc o done seen defs n rest hgood hnodup hfresh
    obtain ⟨k, v⟩ := kv
    have hg := hgood (k, v) (by simp)
    have hd : k ∉ acc.map Prod.fst := hfresh (k, v) (by simp)
    have hnd : k ∉ List.map Prod.fst t ∧ (List.map Prod.fst t).Nodup := by
      simpa using hnodup
    rw [List.map_cons, List.cons_append]
    have hstep := lineStep_option_line done seen defs n acc o hg.1 hg.2 hd
    rw [show runLines ⟨done, seen, defs, some (.named n acc), o, 0⟩
        (pairLine (k, v) :: (t.map pairLine ++ rest)) =
      runLines ⟨done, seen, defs, some (.named n ((k, [v]) :: acc)), some k, 0⟩
        (t.map pairLine ++ rest) from by simp [runLines, hstep]]
    rw [ih ((k, [v]) :: acc) (some k) done seen defs n rest
      (fun x hx => hgood x (List.mem_cons_of_mem _ hx))
      hnd.2
      (by
        intro x hx
        simp only [List.map_cons, List.mem_cons]
        push_neg
        refine ⟨?_, fun m => hfresh x (List.mem_cons_of_mem _ hx) m⟩
        intro e
        exact hnd.1 (e ▸ List.mem_map_of_mem Prod.fst hx))]
    simp [lastKeyOpt]

theorem lineStep_blank_after_pairs
    (pairs : List (String × String)) (done : List (String × RawPairs))
    (seen : List String) (defs : RawPairs) (n : String) :
    lineStep ⟨done, seen, defs,
        some (.named n ((pairs.map (fun kv => (kv.1, [kv.2]))).reverse)),
        lastKeyOpt pairs none, 0⟩ "" =
      .ok ⟨done, seen, defs,
        some (.named n
          (blankAdj ((pairs.map (fun kv => (kv.1, [kv.2]))).reverse))),
        lastKeyOpt pairs none, 0⟩ := by
  induction pairs using List.reverseRecOn with
  | nil =>
    simpa [lastKeyOpt, blankAdj] using
      lineStep_blank_line_no_opt done seen defs (some (.named n [])) 0
  | append_singleton l kv _ =>
    rw [lastKeyOpt_append_last]
    have hrev : (((l ++ [kv]).map (fun kv => (kv.1, [kv.2]))).reverse) =
        (kv.1, [kv.2]) :: (l.map (fun kv => (kv.1, [kv.2]))).reverse := by
      simp
    rw [hrev]
    rw [show blankAdj ((kv.1, [kv.2]) ::
        (l.map (fun kv => (kv.1, [kv.2]))).reverse) =
      (kv.1, "" :: [kv.2]) :: (l.map (fun kv => (kv.1, [kv.2]))).reverse from rfl]
    exact lineStep_blank_line done seen defs n kv.1 [kv.2] _ 0

theorem flushCur_eq (done : List (String × RawPairs)) (seen : List String)
    (defs : RawPairs) (cur : Option CurSect) (o : Option String) (i : Nat) :
    flushCur ⟨done, seen, defs, cur, o, i⟩ =
      ⟨done ++ flushExtra cur, seen, defs, none, o, i⟩ := by
  cases cur with
  | none => simp [flushCur, flushExtra]
  | some c => cases c <;> simp [flushCur, flushExtra]

theorem runLines_section (nm : String) (sec : IniSection)
    (done : List (String × RawPairs)) (seen : List String) (defs : RawPairs)
    (cur : Option CurSect) (o : Option String) (ind : Nat) (rest : List String)
    (hn : GoodSecName nm) (hseen : nm ∉ seen) (hsec : GoodSection sec) :
    runLines ⟨done, seen, defs, cur, o, ind⟩ (sectionLines nm sec ++ rest) =
      runLines ⟨done ++ flushExtra cur, seen ++ [nm], defs,
          some (.named nm (rawOfSec sec)), lastKeyOpt sec none, 0⟩ rest := by
  unfold sectionLines
  simp only [List.cons_append, List.append_assoc, List.singleton_append,
    List.nil_append]
  have hhdr := lineStep_header_line done seen defs cur o ind hn hseen
  rw [flushCur_eq] at hhdr
  rw [show runLines ⟨done, seen, defs, cur, o, ind⟩
      (("[" ++ nm ++ "]") :: (sec.map pairLine ++ ("" :: rest))) =
    runLines ⟨done ++ flushExtra cur, seen ++ [nm], defs,
        some (.named nm []), none, 0⟩
      (sec.map pairLine ++ ("" :: rest)) from by simp [runLines, hhdr]]
  rw [runLines_pairs sec [] none (done ++ flushExtra cur) (seen ++ [nm]) defs nm
    ("" :: rest) hsec.1 hsec.2 (by simp)]
  rw [show runLines ⟨done ++ flushExtra cur, seen ++ [nm], defs,
      some (.named nm ((sec.map (fun kv => (kv.1, [kv.2]))).reverse ++ [])),
      lastKeyOpt sec none, 0⟩ ("" :: rest) =
    runLines ⟨done ++ flushExtra cur, seen ++ [nm], defs,
      some (.named nm (blankAdj ((sec.map (fun kv => (kv.1, [kv.2]))).reverse))),
      lastKeyOpt sec none, 0⟩ rest from by
    simp [runLines, lineStep_blank_after_pairs sec (done ++ flushExtra cur)
      (seen ++ [nm]) defs nm]]
  rfl

theorem runLines_sections (secs : List (String × IniSection)) :
    ∀ (done : List (String × RawPairs)) (seen : List String) (defs : RawPairs)
      (cur : Option CurSect) (o : Option String),
      (∀ sc ∈ secs, GoodSecName sc.1 ∧ GoodSection sc.2) →
      (secs.map Prod.fst).Nodup →
      (∀ sc ∈ secs, sc.1 ∉ seen) →
      ∃ stf : PState,
        runLines ⟨done, seen, defs, cur, o, 0⟩
            ((secs.map fun sc => sectionLines sc.1 sc.2).flatten) = .ok stf ∧
        (flushCur stf).done =
          (done ++ flushExtra cur) ++
            secs.map (fun sc => (sc.1, rawOfSec sc.2)) := by
  induction secs with
  | nil =>
    intro done seen defs cur o _ _ _
    refine ⟨⟨done, seen, defs, cur, o, 0⟩, by simp [runLines], ?_⟩
    rw [flushCur_eq]
    simp
  | cons sc t ih =>
    intro done seen defs cur o hgood hnodup hfresh
    obtain ⟨nm, sec⟩ := sc
    have h1 := hgood (nm, sec) (by simp)
    have hnd : nm ∉ List.map Prod.fst t ∧ (List.map Prod.fst t).Nodup := by
      simpa using hnodup
    rw [List.map_cons, List.flatten_cons]
    rw [runLines_section nm sec done seen defs cur o 0 _ h1.1
      (hfresh (nm, sec) (by simp)) h1.2]
    obtain ⟨stf, hrun, hdone⟩ := ih (done ++ flushExtra cur) (seen ++ [nm]) defs
      (some (.named nm (rawOfSec sec))) (lastKeyOpt sec none)
      (fun x hx => hgood x (List.mem_cons_of_mem _ hx))
      hnd.2
      (by
        intro x hx
        simp only [List.mem_append, List.mem_singleton]
        push_neg
        refine ⟨fun m => hfresh x (List.mem_cons_of_mem _ hx) m, ?_⟩
        intro e
        exact hnd.1 (e ▸ List.mem_map_of_mem Prod.fst hx))
    refine ⟨stf, hrun, ?_⟩
    rw [hdone]
    simp [flushExtra]

/-! ### `_join_multiline_values` undoes the collection -/

theorem finalizeVal_single {v : String} (hv : GoodVal v) : finalizeVal [v] = v := by
  unfold finalizeVal
  rw [show ([v] : List String).reverse = [v] from rfl,
    show joinNL [v] = v from rfl]
  unfold pyRStrip
  rw [hv.2.1, mk_data]

theorem finalizeVal_blank {v : String} (hv : GoodVal v) :
    finalizeVal ["", v] = v := by
  unfold finalizeVal
  rw [show (["", v] : List String).reverse = [v, ""] from rfl,
    show joinNL [v, ""] = v ++ "\n" ++ "" from rfl]
  unfold pyRStrip
  have hd : (v ++ "\n" ++ "").data = v.data ++ ['\n'] := by
    simp [String.data_append]
  rw [hd, trimRightL_append_singleton_ws (by decide), hv.2.1, mk_data]

theorem map_finalize_single (l : IniSection) (h : ∀ kv ∈ l, GoodVal kv.2) :
    ((l.map (fun kv => (kv.1, [kv.2]))).map
      (fun p => (p.1, finalizeVal p.2))) = l := by
  induction l with
  | nil => rfl
  | cons kv t ih =>
    simp only [List.map_cons]
    rw [finalizeVal_single (h kv (by simp)),
      ih (fun x hx => h x (List.mem_cons_of_mem _ hx))]

theorem finalizeSec_rawOfSec {sec : IniSection} (h : GoodSection sec) :
    finalizeSec (rawOfSec sec) = sec := by
  induction sec using List.reverseRecOn with
  | nil => rfl
  | append_singleton l kv _ =>
    have hgood := h.1
    unfold rawOfSec finalizeSec
    rw [List.map_append, List.reverse_append]
    rw [show ((([kv].map (fun kv => (kv.1, [kv.2]))).reverse) ++
        (l.map (fun kv => (kv.1, [kv.2]))).reverse) =
      (kv.1, [kv.2]) :: (l.map (fun kv => (kv.1, [kv.2]))).reverse from by simp]
    rw [show blankAdj ((kv.1, [kv.2]) ::
        (l.map (fun kv => (kv.1, [kv.2]))).reverse) =
      (kv.1, "" :: [kv.2]) :: (l.map (fun kv => (kv.1, [kv.2]))).reverse from rfl]
    rw [List.reverse_cons, List.reverse_reverse]
    rw [List.map_append]
    rw [map_finalize_single l
      (fun x hx => (hgood x (List.mem_append_left _ hx)).2)]
    have hkv : GoodVal kv.2 :=
      (hgood kv (List.mem_append_right _ (by simp))).2
    simp [finalizeVal_blank hkv]

theorem map_sections_finalize (c : Config)
    (h : ∀ sc ∈ c, GoodSection sc.2) :
    ((c.map (fun sc => (sc.1, rawOfSec sc.2))).map
      (fun s => (s.1, finalizeSec s.2))) = c := by
  induction c with
  | nil => rfl
  | cons sc t ih =>
    simp only [List.map_cons]
    rw [finalizeSec_rawOfSec (h sc (by simp)),
      ih (fun x hx => h x (List.mem_cons_of_mem _ hx))]

/-! ### The C8 theorems -/

/-- C8 counterexample: saving the configuration whose `server` value is
`"a "` (trailing blank) and reloading yields `"a"` — `ConfigParser.read`
strips the value — so byte-exact round-tripping fails. -/
theorem C8_roundtrip_fails_on_trailing_space :
    parseLines (writeLines [("general", [("server", "a ")])]) =
        .ok [("general", [("server", "a")])] ∧
      parseLines (writeLines [("general", [("server", "a ")])]) ≠
        .ok [("general", [("server", "a ")])] := by
  constructor
  · rfl
  · intro h
    rw [show parseLines (writeLines [("general", [("server", "a ")])]) =
      .ok [("general", [("server", "a")])] from rfl] at h
    simp at h

/-- C8 amended: save-then-reload is the identity on every configuration
whose section names are well-formed (non-empty, not `DEFAULT`, no `]` or
newline characters, pairwise distinct) and whose keys and values are
well-formed (keys non-empty, ASCII, lower-case, free of
delimiters/newlines, not comment- or header-shaped, without surrounding
whitespace, pairwise distinct per section; values single-line without
leading or trailing whitespace — whitespace throughout in the sense of
Python's `str.strip()`, i.e. the full Unicode `str.isspace()` class
embedded by `pyWhitespace`).  Every configuration this program itself
builds satisfies these conditions except when the user types a value with
surrounding whitespace — exactly the case of the counterexample, where
reloading returns the stripped value instead. -/
theorem C8_save_reload_roundtrip :
    ∀ (fs : FSModel) (path : String) (c : Config) (fs' : FSModel),
      GoodConfig c →
      saveConfig fs path c = .ok fs' →
      lookupA fs'.files path = some (writeLines c) ∧
      parseLines (writeLines c) = .ok c := by
  intro fs path c fs' hg hsave
  constructor
  · unfold saveConfig at hsave
    rcases hw : lookupA fs.writeErr path with _ | e
    · rw [hw] at hsave
      simp at hsave
      rw [← hsave]
      simp [lookupA_setA_self]
    · rw [hw] at hsave
      simp at hsave
  · unfold parseLines writeLines
    obtain ⟨stf, hrun, hdone⟩ := runLines_sections c [] [] [] none none
      hg.1 hg.2 (by simp)
    rw [show initPState = (⟨[], [], [], none, none, 0⟩ : PState) from rfl, hrun]
    simp only []
    rw [hdone]
    simp only [flushExtra, List.append_nil, List.nil_append]
    rw [map_sections_finalize c (fun sc hsc => (hg.1 sc hsc).2)]

/-- C8 amended, witness: a full well-formed configuration written to a
writable path reloads byte-identically. -/
theorem C8_save_reload_roundtrip_witness :
    parseLines (writeLines
      [("general",
        [("server", "10.0.0.5"), ("user", "bob"), ("fullscreen", "yes")])]) =
      .ok [("general",
        [("server", "10.0.0.5"), ("user", "bob"), ("fullscreen", "yes")])] :=
  (C8_save_reload_roundtrip ⟨[], []⟩ "/p"
    [("general", [("server", "10.0.0.5"), ("user", "bob"), ("fullscreen", "yes")])]
    ⟨[("/p", writeLines
      [("general",
        [("server", "10.0.0.5"), ("user", "bob"), ("fullscreen", "yes")])])], []⟩
    (by decide) rfl).2

end Raptic
